import Mathlib

/-!
Verification of the tile stitching core of the `stitch` repository.

The development shallowly embeds the Go source:

* `alphaBlend` embeds `internal/stitcher.alphaBlend` (identical to
  `pkg/tile.AlphaBlend`): 8-bit channels are normalised to rationals
  (the Go code uses `float64`; all the quantities involved are exact
  decimal fractions, so exact rational arithmetic models them), the
  Porter-Duff style formula is computed and the result is re-quantised
  with Go's truncating `byte(...)` conversion.
* `copyTileToBuffer` embeds `internal/stitcher.copyTileToBuffer` as a
  fold over the tile's pixel grid in the source's row-major loop order;
  the canvas is addressed by pixel coordinates (the Go flat RGBA byte
  buffer addresses pixel `(xd, yd)` at byte index `(yd*width+xd)*4`;
  the index-arithmetic facts are proved separately).
* `Stitch` embeds `internal/stitcher.(*Stitcher).Stitch` from the tile
  range derivation down to the finalization policy, parameterised by a
  network oracle `fetch`; `tryTemplates` is its per-position URL
  template loop and `cliTemplateLoop` is the corresponding (break-less)
  loop of `internal/stitch.(*Stitcher).stitch`.
* `generateWorldFile` embeds `internal/stitcher.generateWorldFile`
  together with a model of Go's `fmt` verb `%24.10f`.
* `latlon2tile` / `tile2latlon` embed the slippy-map coordinate
  conversions over the real numbers.
-/

/-- One RGBA8 pixel, channels in the range `0..255`. -/
structure Pix where
  r : ℕ
  g : ℕ
  b : ℕ
  a : ℕ
deriving DecidableEq

/-- Validity of an RGBA8 pixel: every channel fits in a byte. -/
def Pix.Valid (p : Pix) : Prop :=
  p.r ≤ 255 ∧ p.g ≤ 255 ∧ p.b ≤ 255 ∧ p.a ≤ 255

instance (p : Pix) : Decidable p.Valid := by
  unfold Pix.Valid; infer_instance

/-- Go's `byte(f)` conversion for a nonnegative in-range float: truncation
toward zero, modelled as the floor of the rational value. -/
def q2b (q : ℚ) : ℕ := (⌊q⌋).toNat

/-- Embedding of `alphaBlend` (internal/stitcher/stitcher.go) and the
textually identical `AlphaBlend` (pkg/tile): normalise the channels,
premultiply by alpha, combine with `c_out = cs*(1-ad) + cd`,
`a_out = as*(1-ad) + ad`, and unpremultiply if `a_out > 0`. -/
def alphaBlend (src dst : Pix) : Pix :=
  let sa : ℚ := (src.a : ℚ) / 255
  let sr : ℚ := (src.r : ℚ) / 255 * sa
  let sg : ℚ := (src.g : ℚ) / 255 * sa
  let sb : ℚ := (src.b : ℚ) / 255 * sa
  let da : ℚ := (dst.a : ℚ) / 255
  let dr : ℚ := (dst.r : ℚ) / 255 * da
  let dg : ℚ := (dst.g : ℚ) / 255 * da
  let db : ℚ := (dst.b : ℚ) / 255 * da
  let ar : ℚ := sa * (1 - da) + da
  let rr : ℚ := sr * (1 - da) + dr
  let gr : ℚ := sg * (1 - da) + dg
  let br : ℚ := sb * (1 - da) + db
  if 0 < ar then
    ⟨q2b (rr / ar * 255), q2b (gr / ar * 255), q2b (br / ar * 255), q2b (ar * 255)⟩
  else
    ⟨0, 0, 0, 0⟩

/-- C5: the per-pixel blend computes, on channels normalised to `[0,1]`
and premultiplied by their alphas, `a_out = as*(1-ad) + ad` and each
colour channel `c_out = (cs*(1-ad) + cd) / a_out` when `a_out > 0`
(re-quantised to a byte by Go's truncating conversion), and produces
fully transparent black when `a_out = 0`. -/
theorem alphaBlend_spec (src dst : Pix) (hs : src.Valid) (hd : dst.Valid) :
    let sa : ℚ := (src.a : ℚ) / 255
    let da : ℚ := (dst.a : ℚ) / 255
    let aOut : ℚ := sa * (1 - da) + da
    (aOut = 0 → alphaBlend src dst = ⟨0, 0, 0, 0⟩) ∧
    (0 < aOut →
      alphaBlend src dst =
        ⟨q2b (((src.r : ℚ) / 255 * sa * (1 - da) + (dst.r : ℚ) / 255 * da) / aOut * 255),
         q2b (((src.g : ℚ) / 255 * sa * (1 - da) + (dst.g : ℚ) / 255 * da) / aOut * 255),
         q2b (((src.b : ℚ) / 255 * sa * (1 - da) + (dst.b : ℚ) / 255 * da) / aOut * 255),
         q2b (aOut * 255)⟩) ∧
    0 ≤ aOut := by
  intro sa da aOut
  have hda1 : da ≤ 1 := by
    have : (dst.a : ℚ) ≤ 255 := by exact_mod_cast hd.2.2.2
    rw [div_le_one (by norm_num)]; exact this
  have hda0 : 0 ≤ da := by positivity
  have hsa0 : 0 ≤ sa := by positivity
  have hout0 : 0 ≤ aOut := by
    have h1 : 0 ≤ sa * (1 - da) := mul_nonneg hsa0 (by linarith)
    simp only [aOut]; linarith
  refine ⟨?_, ?_, hout0⟩
  · intro h0
    unfold alphaBlend
    rw [if_neg]
    simp only [sa, da, aOut] at h0
    rw [h0]
    simp
  · intro hpos
    unfold alphaBlend
    rw [if_pos (by simpa only [sa, da, aOut] using hpos)]

/-- Witness for `alphaBlend_spec` at a concrete semi-transparent pair. -/
theorem alphaBlend_spec_witness :
    (Pix.Valid ⟨200, 100, 50, 128⟩ ∧ Pix.Valid ⟨10, 20, 30, 255⟩) ∧
    (let src : Pix := ⟨200, 100, 50, 128⟩
     let dst : Pix := ⟨10, 20, 30, 255⟩
     let sa : ℚ := (src.a : ℚ) / 255
     let da : ℚ := (dst.a : ℚ) / 255
     let aOut : ℚ := sa * (1 - da) + da
     (aOut = 0 → alphaBlend src dst = ⟨0, 0, 0, 0⟩) ∧
     (0 < aOut →
       alphaBlend src dst =
         ⟨q2b (((src.r : ℚ) / 255 * sa * (1 - da) + (dst.r : ℚ) / 255 * da) / aOut * 255),
          q2b (((src.g : ℚ) / 255 * sa * (1 - da) + (dst.g : ℚ) / 255 * da) / aOut * 255),
          q2b (((src.b : ℚ) / 255 * sa * (1 - da) + (dst.b : ℚ) / 255 * da) / aOut * 255),
          q2b (aOut * 255)⟩) ∧
     0 ≤ aOut) :=
  ⟨⟨by decide, by decide⟩, alphaBlend_spec ⟨200, 100, 50, 128⟩ ⟨10, 20, 30, 255⟩ (by decide) (by decide)⟩

/-- The output canvas, addressed by pixel coordinates. The Go code stores
it as a flat RGBA byte buffer of length `width*height*4`; pixel `(x, y)`
lives at byte index `(y*width+x)*4`, an addressing proved in-bounds in
`copyTileToBuffer_frame`. -/
abbrev Canvas : Type := ℤ → ℤ → Pix

/-- Embedding of the decoded tile type `ImageData`: a pixel accessor plus
the decoded width, height and channel depth. -/
structure ImageData where
  px : ℤ → ℤ → Pix
  width : ℤ
  height : ℤ
  depth : ℕ

/-- Pointwise update of one canvas pixel. -/
def updatePix (c : Canvas) (x y : ℤ) (v : Pix) : Canvas :=
  fun u w => if u = x ∧ w = y then v else c u w

/-- Row-major list of the pixel coordinates of a `w × h` tile, mirroring
the nested `for y { for x { ... } }` loops of `copyTileToBuffer`. -/
def tilePts (w h : ℤ) : List (ℤ × ℤ) :=
  (List.range h.toNat).flatMap fun y : ℕ =>
    (List.range w.toNat).map fun x : ℕ => ((x : ℤ), (y : ℤ))

/-- One step per tile pixel of `copyTileToBuffer`: destination coordinates
are the pixel's position plus the offsets; out-of-canvas destinations are
skipped (`continue`), otherwise the tile pixel is alpha-blended onto the
canvas pixel. -/
def placePts (img : ImageData) (xoff yoff wOut hOut : ℤ) : List (ℤ × ℤ) → Canvas → Canvas
  | [], buf => buf
  | p :: ps, buf =>
    let xd := p.1 + xoff
    let yd := p.2 + yoff
    if xd < 0 ∨ yd < 0 ∨ wOut ≤ xd ∨ hOut ≤ yd then
      placePts img xoff yoff wOut hOut ps buf
    else
      placePts img xoff yoff wOut hOut ps
        (updatePix buf xd yd (alphaBlend (img.px p.1 p.2) (buf xd yd)))

/-- Embedding of `copyTileToBuffer` (internal/stitcher/stitcher.go):
iterate over the tile's pixels in row-major order and blend each one whose
destination lies inside the canvas. -/
def copyTileToBuffer (img : ImageData) (buf : Canvas) (xoff yoff wOut hOut : ℤ) : Canvas :=
  placePts img xoff yoff wOut hOut (tilePts img.width img.height) buf

/-- Membership in the intersection of the tile's destination rectangle
with the canvas bounds. -/
def inDest (img : ImageData) (xoff yoff wOut hOut : ℤ) (u v : ℤ) : Prop :=
  0 ≤ u - xoff ∧ u - xoff < img.width ∧ 0 ≤ v - yoff ∧ v - yoff < img.height ∧
    0 ≤ u ∧ u < wOut ∧ 0 ≤ v ∧ v < hOut

instance (img : ImageData) (xoff yoff wOut hOut u v : ℤ) :
    Decidable (inDest img xoff yoff wOut hOut u v) := by
  unfold inDest; infer_instance

theorem mem_tilePts {w h a b : ℤ} :
    (a, b) ∈ tilePts w h ↔ 0 ≤ a ∧ a < w ∧ 0 ≤ b ∧ b < h := by
  simp only [tilePts, List.mem_flatMap, List.mem_map, List.mem_range]
  constructor
  · rintro ⟨y, hy, x, hx, heq⟩
    rw [Prod.mk.injEq] at heq
    obtain ⟨h1, h2⟩ := heq
    omega
  · rintro ⟨h1, h2, h3, h4⟩
    refine ⟨b.toNat, by omega, a.toNat, by omega, ?_⟩
    rw [Prod.mk.injEq]
    constructor <;> omega

theorem tilePts_nodup (w h : ℤ) : (tilePts w h).Nodup := by
  unfold tilePts
  rw [List.nodup_flatMap]
  constructor
  · intro y _
    refine List.Nodup.map ?_ (List.nodup_range _)
    intro x₁ x₂ hx
    rw [Prod.mk.injEq] at hx
    exact_mod_cast hx.1
  · refine List.Pairwise.imp ?_ (List.pairwise_lt_range _)
    intro y₁ y₂ hlt
    intro l h₁ h₂
    simp only [Function.onFun, List.mem_map] at h₁ h₂
    obtain ⟨x₁, _, rfl⟩ := h₁
    obtain ⟨x₂, _, h⟩ := h₂
    rw [Prod.mk.injEq] at h
    omega

/-- Pointwise characterisation of the placement fold: each destination
pixel is written at most once (the offset map is injective on distinct
tile pixels), and the blend at a pixel reads only that same pixel, so the
fold acts pointwise. -/
theorem placePts_apply (img : ImageData) (xoff yoff wOut hOut : ℤ)
    (pts : List (ℤ × ℤ)) (hnd : pts.Nodup) (buf : Canvas) (u v : ℤ) :
    placePts img xoff yoff wOut hOut pts buf u v =
      if (u - xoff, v - yoff) ∈ pts ∧ (0 ≤ u ∧ u < wOut ∧ 0 ≤ v ∧ v < hOut) then
        alphaBlend (img.px (u - xoff) (v - yoff)) (buf u v)
      else buf u v := by
  induction pts generalizing buf with
  | nil => simp [placePts]
  | cons p ps ih =>
    obtain ⟨hp, hps⟩ := List.nodup_cons.mp hnd
    by_cases hg : p.1 + xoff < 0 ∨ p.2 + yoff < 0 ∨ wOut ≤ p.1 + xoff ∨ hOut ≤ p.2 + yoff
    · rw [placePts, if_pos hg, ih hps]
      by_cases hm : (u - xoff, v - yoff) = p
      · have h1 : u - xoff = p.1 := by rw [← hm]
        have h2 : v - yoff = p.2 := by rw [← hm]
        have hnb : ¬ (0 ≤ u ∧ u < wOut ∧ 0 ≤ v ∧ v < hOut) := by omega
        rw [if_neg (by tauto), if_neg (by tauto)]
      · have hcons0 : ((u - xoff, v - yoff) ∈ p :: ps) ↔ ((u - xoff, v - yoff) ∈ ps) := by
          simp [List.mem_cons, hm]
        simp only [hcons0]
    · rw [placePts, if_neg hg, ih hps]
      by_cases hm : (u - xoff, v - yoff) = p
      · have h1 : p.1 = u - xoff := by rw [← hm]
        have h2 : p.2 = v - yoff := by rw [← hm]
        have hb : 0 ≤ u ∧ u < wOut ∧ 0 ≤ v ∧ v < hOut := by omega
        have hmem : (u - xoff, v - yoff) ∈ p :: ps := by rw [hm]; exact List.mem_cons_self _ _
        rw [if_neg (by rw [hm]; tauto), if_pos ⟨hmem, hb⟩]
        have hxy : p.1 + xoff = u ∧ p.2 + yoff = v := by omega
        rw [hxy.1, hxy.2]
        simp [updatePix, h1, h2]
      · have hne : ¬ (u = p.1 + xoff ∧ v = p.2 + yoff) := by
          intro h
          apply hm
          have : u - xoff = p.1 ∧ v - yoff = p.2 := by omega
          rw [Prod.ext_iff]
          exact this
        have hupd : updatePix buf (p.1 + xoff) (p.2 + yoff)
            (alphaBlend (img.px p.1 p.2) (buf (p.1 + xoff) (p.2 + yoff))) u v = buf u v := by
          simp [updatePix, hne]
        have hcons : ((u - xoff, v - yoff) ∈ p :: ps) ↔ ((u - xoff, v - yoff) ∈ ps) := by
          simp [List.mem_cons, hm]
        simp only [hcons, hupd]

theorem copyTileToBuffer_apply (img : ImageData) (buf : Canvas) (xoff yoff wOut hOut u v : ℤ) :
    copyTileToBuffer img buf xoff yoff wOut hOut u v =
      if inDest img xoff yoff wOut hOut u v then
        alphaBlend (img.px (u - xoff) (v - yoff)) (buf u v)
      else buf u v := by
  rw [copyTileToBuffer, placePts_apply _ _ _ _ _ _ (tilePts_nodup _ _)]
  have hiff : ((u - xoff, v - yoff) ∈ tilePts img.width img.height ∧
      (0 ≤ u ∧ u < wOut ∧ 0 ≤ v ∧ v < hOut)) ↔ inDest img xoff yoff wOut hOut u v := by
    rw [mem_tilePts]
    unfold inDest
    tauto
  simp only [hiff]

theorem flatIndexBounds (a b w h : ℤ) (ha : 0 ≤ a) (haw : a < w) (hb : 0 ≤ b) (hbh : b < h) :
    0 ≤ (b * w + a) * 4 ∧ (b * w + a) * 4 + 3 < w * h * 4 := by
  have hw : 0 < w := lt_of_le_of_lt ha haw
  have h1 : 0 ≤ b * w := mul_nonneg hb (le_of_lt hw)
  have h2 : b * w + a < w * h := by nlinarith
  constructor <;> nlinarith

/-- C10: placing a decoded tile modifies only canvas pixels inside the
intersection of its destination rectangle with the canvas bounds: every
pixel outside that intersection keeps its previous value, and the flat
RGBA byte indices the Go loop reads and writes under its bounds guard
(`(yd*width+xd)*4 .. +3` in the canvas, `(y*img.width+x)*4 .. +3` in the
tile) always lie inside the respective buffers. -/
theorem copyTileToBuffer_frame (img : ImageData) (buf : Canvas)
    (xoff yoff wOut hOut u v : ℤ)
    (hout : ¬ inDest img xoff yoff wOut hOut u v) :
    copyTileToBuffer img buf xoff yoff wOut hOut u v = buf u v ∧
    (∀ a b : ℤ, 0 ≤ a → a < wOut → 0 ≤ b → b < hOut →
      0 ≤ (b * wOut + a) * 4 ∧ (b * wOut + a) * 4 + 3 < wOut * hOut * 4) ∧
    (∀ a b : ℤ, 0 ≤ a → a < img.width → 0 ≤ b → b < img.height →
      0 ≤ (b * img.width + a) * 4 ∧
        (b * img.width + a) * 4 + 3 < img.width * img.height * 4) := by
  refine ⟨?_, ?_, ?_⟩
  · rw [copyTileToBuffer_apply, if_neg hout]
  · intro a b ha haw hb hbh
    exact flatIndexBounds a b wOut hOut ha haw hb hbh
  · intro a b ha haw hb hbh
    exact flatIndexBounds a b img.width img.height ha haw hb hbh

/-- Concrete 1x1 fully opaque red tile. -/
def imgRed : ImageData := ⟨fun _ _ => ⟨255, 0, 0, 255⟩, 1, 1, 4⟩

/-- Concrete 1x1 fully opaque blue tile. -/
def imgBlue : ImageData := ⟨fun _ _ => ⟨0, 0, 255, 255⟩, 1, 1, 4⟩

/-- Fully transparent black canvas, the initial state of the output
buffer (`make([]byte, width*height*4)` zero-fills). -/
def clearCanvas : Canvas := fun _ _ => ⟨0, 0, 0, 0⟩

/-- Witness for `copyTileToBuffer_frame`: the pixel `(2,2)` of a 3x3
canvas is outside the destination of a 1x1 tile placed at the origin and
is left unchanged. -/
theorem copyTileToBuffer_frame_witness :
    (¬ inDest imgRed 0 0 3 3 2 2) ∧
    (copyTileToBuffer imgRed clearCanvas 0 0 3 3 2 2 = clearCanvas 2 2 ∧
      (∀ a b : ℤ, 0 ≤ a → a < 3 → 0 ≤ b → b < 3 →
        0 ≤ (b * 3 + a) * 4 ∧ (b * 3 + a) * 4 + 3 < 3 * 3 * 4) ∧
      (∀ a b : ℤ, 0 ≤ a → a < imgRed.width → 0 ≤ b → b < imgRed.height →
        0 ≤ (b * imgRed.width + a) * 4 ∧
          (b * imgRed.width + a) * 4 + 3 < imgRed.width * imgRed.height * 4)) :=
  ⟨by decide, copyTileToBuffer_frame imgRed clearCanvas 0 0 3 3 2 2 (by decide)⟩

/-- C4 (amended): the blend leaves a fully opaque destination pixel
unchanged (the source is weighted by `1 - ad`, so the compositing rule is
destination-over: where placements overlap, the EARLIER placement wins on
opaque pixels), and placements with disjoint destination intersections
commute. -/
theorem copyTile_order_policy :
    (∀ src dst : Pix, dst.a = 255 → alphaBlend src dst = dst) ∧
    (∀ (imgA imgB : ImageData) (buf : Canvas) (xa ya xb yb wOut hOut : ℤ),
      (∀ u v : ℤ, ¬(inDest imgA xa ya wOut hOut u v ∧ inDest imgB xb yb wOut hOut u v)) →
      ∀ u v : ℤ,
        copyTileToBuffer imgB (copyTileToBuffer imgA buf xa ya wOut hOut) xb yb wOut hOut u v =
          copyTileToBuffer imgA (copyTileToBuffer imgB buf xb yb wOut hOut) xa ya wOut hOut u v) := by
  constructor
  · intro src dst h255
    obtain ⟨r, g, bl, a⟩ := dst
    simp only at h255
    subst h255
    unfold alphaBlend
    norm_num
    simp [q2b, Pix.mk.injEq]
  · intro imgA imgB buf xa ya xb yb wOut hOut hdisj u v
    rw [copyTileToBuffer_apply, copyTileToBuffer_apply, copyTileToBuffer_apply,
      copyTileToBuffer_apply]
    by_cases hA : inDest imgA xa ya wOut hOut u v <;>
      by_cases hB : inDest imgB xb yb wOut hOut u v
    · exact absurd ⟨hA, hB⟩ (hdisj u v)
    · simp [hA, hB]
    · simp [hA, hB]
    · simp [hA, hB]

/-- C4 counterexample: an opaque red 1x1 tile placed first and an opaque
blue 1x1 tile placed second at the same canvas position leave the RED
pixel on the canvas — the later placement does not occlude the earlier
one, contrary to the claim. -/
theorem copyTile_order_cex :
    copyTileToBuffer imgBlue (copyTileToBuffer imgRed clearCanvas 0 0 1 1) 0 0 1 1 0 0 =
      ⟨255, 0, 0, 255⟩ ∧
    imgBlue.px 0 0 = ⟨0, 0, 255, 255⟩ ∧
    (⟨255, 0, 0, 255⟩ : Pix) ≠ ⟨0, 0, 255, 255⟩ := by
  refine ⟨?_, rfl, by decide⟩
  rw [copyTileToBuffer_apply, copyTileToBuffer_apply]
  norm_num [inDest, imgRed, imgBlue]
  norm_num [alphaBlend, q2b, clearCanvas, imgRed, imgBlue]
  have h : Int.toNat 255 = 255 := by simp
  rw [h]
  refine ⟨?_, by norm_num, by simp⟩
  norm_num
  simp

/-- Witness for `copyTile_order_policy` at concrete opaque pixels and
disjoint 1x1 placements. -/
theorem copyTile_order_policy_witness :
    ((⟨7, 8, 9, 255⟩ : Pix).a = 255 ∧ alphaBlend ⟨1, 2, 3, 4⟩ ⟨7, 8, 9, 255⟩ = ⟨7, 8, 9, 255⟩) ∧
    ((∀ u v : ℤ, ¬(inDest imgRed 0 0 4 4 u v ∧ inDest imgBlue 2 2 4 4 u v)) ∧
      (∀ u v : ℤ,
        copyTileToBuffer imgBlue (copyTileToBuffer imgRed clearCanvas 0 0 4 4) 2 2 4 4 u v =
          copyTileToBuffer imgRed (copyTileToBuffer imgBlue clearCanvas 2 2 4 4) 0 0 4 4 u v)) :=
  ⟨⟨rfl, copyTile_order_policy.1 ⟨1, 2, 3, 4⟩ ⟨7, 8, 9, 255⟩ rfl⟩,
   ⟨fun u v => by simp only [inDest, imgRed, imgBlue]; omega,
    copyTile_order_policy.2 imgRed imgBlue clearCanvas 0 0 2 2 4 4
      (fun u v => by simp only [inDest, imgRed, imgBlue]; omega)⟩⟩

/-- Truncation to Go's `uint32`. -/
def u32 (n : ℕ) : ℕ := n % 4294967296

/-- Go `uint32` subtraction `a - b` (wrapping) for `a, b < 2^32`. -/
def u32sub (a b : ℕ) : ℕ := (a + 4294967296 - b) % 4294967296

/-- Fuelled digit extraction (the fuel, at least one plus the digit
count, makes the recursion structural, so proofs can evaluate it). -/
def natCharsAux : ℕ → ℕ → List Char
  | 0, _ => []
  | fuel + 1, n =>
    if n < 10 then [Char.ofNat (48 + n)]
    else natCharsAux fuel (n / 10) ++ [Char.ofNat (48 + n % 10)]

/-- Decimal digits of a natural number, mirroring Go's `strconv.Itoa` /
`strconv.FormatUint` output. -/
def natChars (n : ℕ) : List Char := natCharsAux (n + 1) n

/-- Fuelled core of `listReplace` (the fuel, at least the length of the
subject, makes the recursion structural). -/
def listReplaceAux (pat rep : List Char) : ℕ → List Char → List Char
  | 0, s => s
  | _, [] => []
  | fuel + 1, c :: cs =>
    if pat.length ≠ 0 ∧ (c :: cs).take pat.length = pat then
      rep ++ listReplaceAux pat rep fuel ((c :: cs).drop pat.length)
    else
      c :: listReplaceAux pat rep fuel cs

/-- Replacement of every (non-overlapping, left-to-right) occurrence of
`pat` by `rep`, mirroring Go's `strings.ReplaceAll`. -/
def listReplace (pat rep s : List Char) : List Char :=
  listReplaceAux pat rep s.length s

/-- Substring test mirroring Go's `strings.Contains`. -/
def hasSub (pat : List Char) : List Char → Bool
  | [] => pat.isEmpty
  | c :: cs => if (c :: cs).take pat.length = pat then true else hasSub pat cs

/-- Embedding of `buildURL` (internal/stitcher/stitcher.go, identical to
`pkg/tile.BuildURL`): substitute the decimal values of zoom and the tile
index for the literal `{z}`, `{x}`, `{y}` tokens, and if `{s}` occurs,
the subdomain letter `'a' + (x+y)%3` (`x+y` in wrapping `uint32`
arithmetic). -/
def buildURL (template : String) (zoom tx ty : ℕ) : String :=
  let s0 := template.toList
  let s1 := listReplace "{z}".toList (natChars zoom) s0
  let s2 := listReplace "{x}".toList (natChars tx) s1
  let s3 := listReplace "{y}".toList (natChars ty) s2
  let s4 :=
    if hasSub "{s}".toList s3 then
      listReplace "{s}".toList [Char.ofNat (97 + u32 (tx + ty) % 3)] s3
    else s3
  String.mk s4

/-- Outcome of one tile download+decode attempt, the oracle standing in
for the network and the image decoders: `httpErr` models a
`downloadTile` error (transport failure or non-200 status), `decodeErr`
a `decodeImage` failure, `ok` a decoded image. -/
inductive FetchOutcome where
  | httpErr (msg : String)
  | decodeErr (msg : String)
  | ok (img : ImageData)

/-- Embedding of the `FailedTile` ledger entry. `statusCode` is never
populated by `Stitch` (the status is folded into the error message). -/
structure FailedTile where
  url : String
  statusCode : Option ℕ
  error : String
deriving DecidableEq

/-- Mutable state threaded through the download loop of `Stitch`: the
canvas, the failure ledger, the success counter, and (model-level
instrumentation, not a Go variable) the trace of URLs downloaded. -/
structure GridState where
  buf : Canvas
  failedTiles : List FailedTile
  successfulTiles : ℕ
  fetched : List String

/-- The `wrong tile size` ledger message of `Stitch`. -/
def wrongSizeMsg (w h : ℤ) (ts : ℕ) : String :=
  "wrong tile size: got " ++ String.mk (natChars w.toNat) ++ "x" ++
    String.mk (natChars h.toNat) ++ ", expected " ++ String.mk (natChars ts) ++ "x" ++
    String.mk (natChars ts)

/-- Embedding of the inner `for _, urlTemplate := range opts.TileURLs`
loop of `Stitch` at one tile index: each failing attempt appends a ledger
entry and continues with the next template; the first attempt that
decodes with the configured tile size is composited, increments the
success counter and BREAKS (remaining templates are skipped). -/
def tryTemplates (fetch : String → FetchOutcome) (tileSize zoom tx ty : ℕ)
    (xoff yoff wOut hOut : ℤ) : List String → GridState → GridState
  | [], st => st
  | u :: rest, st =>
    let url := buildURL u zoom tx ty
    match fetch url with
    | .httpErr msg =>
      tryTemplates fetch tileSize zoom tx ty xoff yoff wOut hOut rest
        { st with failedTiles := st.failedTiles ++ [⟨url, none, msg⟩],
                  fetched := st.fetched ++ [url] }
    | .decodeErr msg =>
      tryTemplates fetch tileSize zoom tx ty xoff yoff wOut hOut rest
        { st with failedTiles := st.failedTiles ++ [⟨url, none, "decode error: " ++ msg⟩],
                  fetched := st.fetched ++ [url] }
    | .ok img =>
      if img.height ≠ (tileSize : ℤ) ∨ img.width ≠ (tileSize : ℤ) then
        let entry : FailedTile := ⟨url, none, wrongSizeMsg img.width img.height tileSize⟩
        tryTemplates fetch tileSize zoom tx ty xoff yoff wOut hOut rest
          { st with failedTiles := st.failedTiles ++ [entry],
                    fetched := st.fetched ++ [url] }
      else
        { st with buf := copyTileToBuffer img st.buf xoff yoff wOut hOut,
                  successfulTiles := st.successfulTiles + 1,
                  fetched := st.fetched ++ [url] }

/-- Row-major list of tile index positions, mirroring the
`for ty := ty1; ty <= ty2 { for tx := tx1; tx <= tx2 { ... } }` loops. -/
def gridPts (tx1 ty1 tx2 ty2 : ℕ) : List (ℕ × ℕ) :=
  (List.range (ty2 + 1 - ty1)).flatMap fun j : ℕ =>
    (List.range (tx2 + 1 - tx1)).map fun i : ℕ => (tx1 + i, ty1 + j)

/-- Per-position step of the download loop: compute the pixel offsets
`xoff = int(tx-tx1)*tileSize - xa` and `yoff`, then run the URL template
loop. -/
def processPosition (fetch : String → FetchOutcome) (urls : List String)
    (tileSize zoom tx1 ty1 : ℕ) (xa ya wOut hOut : ℕ) (st : GridState) (pos : ℕ × ℕ) :
    GridState :=
  let xoff : ℤ := (((pos.1 - tx1) * tileSize : ℕ) : ℤ) - (xa : ℤ)
  let yoff : ℤ := (((pos.2 - ty1) * tileSize : ℕ) : ℤ) - (ya : ℤ)
  tryTemplates fetch tileSize zoom pos.1 pos.2 xoff yoff (wOut : ℤ) (hOut : ℤ) urls st

/-- The download-and-stitch loop of `Stitch` over the whole grid,
starting from the zero-filled (fully transparent) canvas. -/
def runGrid (fetch : String → FetchOutcome) (urls : List String)
    (tileSize zoom tx1 ty1 tx2 ty2 xa ya wOut hOut : ℕ) : GridState :=
  (gridPts tx1 ty1 tx2 ty2).foldl
    (processPosition fetch urls tileSize zoom tx1 ty1 xa ya wOut hOut)
    ⟨clearCanvas, [], 0, []⟩

/-- Output format constants of internal/stitcher (`FormatPNG = iota`). -/
def FormatPNG : ℕ := 0

/-- Output format constant `FormatGeoTIFF` of internal/stitcher. -/
def FormatGeoTIFF : ℕ := 1

/-- Canvas dimension derivation of `Stitch`:
`int(((c2>>(32-(zoom+8))) - (c1>>(32-(zoom+8)))) * uint32(tileSize) / 256)`
in wrapping `uint32` arithmetic. -/
def canvasDim (c1 c2 zoom tileSize : ℕ) : ℕ :=
  u32 (u32sub (c2 / 2 ^ (32 - (zoom + 8))) (c1 / 2 ^ (32 - (zoom + 8))) * tileSize) / 256

/-- Sub-tile origin offset derivation of `Stitch`:
`int(((c1 >> (32 - (zoom + 8))) & 0xFF) * uint32(tileSize) / 256)`. -/
def originOffset (c1 zoom tileSize : ℕ) : ℕ :=
  u32 (c1 / 2 ^ (32 - (zoom + 8)) % 256 * tileSize) / 256

/-- The `totalTiles` statistic of `Stitch`:
`int((tx2-tx1+1) * (ty2-ty1+1) * uint32(len(opts.TileURLs)))` in wrapping
`uint32` arithmetic — note the multiplication by the number of URL
templates. -/
def totalTilesOf (tx1 ty1 tx2 ty2 nUrls : ℕ) : ℕ :=
  u32 (u32 (u32sub tx2 tx1 + 1) * u32 (u32sub ty2 ty1 + 1) * u32 nUrls)

/-- Error outcomes of `Stitch`: the size-ceiling rejection, the two
`TileError` variants of the finalization policy (both carrying the
ledger), and the unimplemented-GeoTIFF rejection. -/
inductive StitchError where
  | tooLarge (width height : ℕ)
  | noTiles (failedTiles : List FailedTile) (totalTiles : ℕ)
  | tooManyFailures (failedTiles : List FailedTile) (successfulTiles totalTiles : ℕ)
  | geotiffUnimplemented

/-- Embedding of the stitcher `Result`: the canvas (PNG encoding is
lossless and modelled as the identity on the pixel buffer) and its
dimensions. The georeferencing fields (`MinX`, `MaxY`, pixel sizes) are
float quantities not touched by any claim and are omitted. -/
structure StitchResult where
  image : Canvas
  width : ℕ
  height : ℕ

/-- Embedding of `(*Stitcher).Stitch` (internal/stitcher/stitcher.go)
from the fixed-precision coordinates `x1 y1 x2 y2` (as produced by
`latlon2tile(…, 32)`) down to the finalization policy. The network and
decoders are the `fetch` oracle; context cancellation (which only
interrupts the loop early) is not modelled. The returned `GridState` is
the final loop state (in Go, local variables); the `Except` is the
`(*Result, error)` pair. -/
def Stitch (fetch : String → FetchOutcome) (x1 y1 x2 y2 zoom tileSize : ℕ)
    (urls : List String) (outputFormat : ℕ) : GridState × Except StitchError StitchResult :=
  let tx1 := x1 / 2 ^ (32 - zoom)
  let ty1 := y1 / 2 ^ (32 - zoom)
  let tx2 := x2 / 2 ^ (32 - zoom)
  let ty2 := y2 / 2 ^ (32 - zoom)
  let xa := originOffset x1 zoom tileSize
  let ya := originOffset y1 zoom tileSize
  let width := canvasDim x1 x2 zoom tileSize
  let height := canvasDim y1 y2 zoom tileSize
  if width * height > 10000 * 10000 then
    (⟨clearCanvas, [], 0, []⟩, .error (.tooLarge width height))
  else
    let totalTiles := totalTilesOf tx1 ty1 tx2 ty2 urls.length
    let st := runGrid fetch urls tileSize zoom tx1 ty1 tx2 ty2 xa ya width height
    if st.successfulTiles = 0 then
      (st, .error (.noTiles st.failedTiles totalTiles))
    else if st.failedTiles.length > totalTiles / 2 then
      (st, .error (.tooManyFailures st.failedTiles st.successfulTiles totalTiles))
    else if outputFormat = FormatPNG then
      (st, .ok ⟨st.buf, width, height⟩)
    else if outputFormat = FormatGeoTIFF then
      (st, .error .geotiffUnimplemented)
    else
      (st, .ok ⟨st.buf, width, height⟩)

/-- Per-pixel copy step of the CLI stitcher (internal/stitch/stitcher.go):
depth 4 alpha-blends, depth 3 copies RGB with full alpha, anything else is
treated as grayscale. -/
def cliPlacePts (img : ImageData) (xoff yoff wOut hOut : ℤ) : List (ℤ × ℤ) → Canvas → Canvas
  | [], buf => buf
  | p :: ps, buf =>
    let xd := p.1 + xoff
    let yd := p.2 + yoff
    if xd < 0 ∨ yd < 0 ∨ wOut ≤ xd ∨ hOut ≤ yd then
      cliPlacePts img xoff yoff wOut hOut ps buf
    else
      let s := img.px p.1 p.2
      let v : Pix :=
        if img.depth = 4 then alphaBlend s (buf xd yd)
        else if img.depth = 3 then ⟨s.r, s.g, s.b, 255⟩
        else ⟨s.r, s.r, s.r, 255⟩
      cliPlacePts img xoff yoff wOut hOut ps (updatePix buf xd yd v)

/-- Tile placement of the CLI stitcher: same loop bounds as
`copyTileToBuffer` but with the depth-dependent per-pixel copy. -/
def cliCopyTile (img : ImageData) (buf : Canvas) (xoff yoff wOut hOut : ℤ) : Canvas :=
  cliPlacePts img xoff yoff wOut hOut (tilePts img.width img.height) buf

/-- Loop state of the CLI stitcher at one tile position: the canvas and
the (model-level) trace of URLs downloaded. The CLI variant keeps no
failure ledger; failures are only printed to stderr. -/
structure CliState where
  buf : Canvas
  fetched : List String

/-- Embedding of the inner `for _, urlTemplate := range urls` loop of the
CLI `stitch` (internal/stitch/stitcher.go lines 131-187): every template
is downloaded in order; failures are skipped with `continue`, and — unlike
the `Stitch` loop of internal/stitcher — a successful decode does NOT
break: the loop composites the tile and moves on to the NEXT template. -/
def cliTemplateLoop (fetch : String → FetchOutcome) (tileSize zoom tx ty : ℕ)
    (xoff yoff wOut hOut : ℤ) : List String → CliState → CliState
  | [], st => st
  | u :: rest, st =>
    let url := buildURL u zoom tx ty
    match fetch url with
    | .httpErr _ =>
      cliTemplateLoop fetch tileSize zoom tx ty xoff yoff wOut hOut rest
        { st with fetched := st.fetched ++ [url] }
    | .decodeErr _ =>
      cliTemplateLoop fetch tileSize zoom tx ty xoff yoff wOut hOut rest
        { st with fetched := st.fetched ++ [url] }
    | .ok img =>
      if img.height ≠ (tileSize : ℤ) ∨ img.width ≠ (tileSize : ℤ) then
        cliTemplateLoop fetch tileSize zoom tx ty xoff yoff wOut hOut rest
          { st with fetched := st.fetched ++ [url] }
      else
        cliTemplateLoop fetch tileSize zoom tx ty xoff yoff wOut hOut rest
          ⟨cliCopyTile img st.buf xoff yoff wOut hOut, st.fetched ++ [url]⟩

/-- An attempt at `url` that joins the failure ledger: download error,
decode error, or a size mismatch against the configured tile size. -/
def failsFor (fetch : String → FetchOutcome) (tileSize : ℕ) (url : String) : Prop :=
  match fetch url with
  | .httpErr _ => True
  | .decodeErr _ => True
  | .ok img => img.height ≠ (tileSize : ℤ) ∨ img.width ≠ (tileSize : ℤ)

/-- An attempt at `url` that yields a decoded, size-valid tile. -/
def succeedsFor (fetch : String → FetchOutcome) (tileSize : ℕ) (url : String) : Prop :=
  match fetch url with
  | .httpErr _ => False
  | .decodeErr _ => False
  | .ok img => img.height = (tileSize : ℤ) ∧ img.width = (tileSize : ℤ)

/-- Fetch oracle failing every URL with a transport error. -/
def fetchAllFail : String → FetchOutcome := fun _ => .httpErr "connection refused"

/-- A decoded, size-valid (1x1) opaque tile returned for every URL. -/
def okTile : ImageData := ⟨fun _ _ => ⟨1, 2, 3, 255⟩, 1, 1, 4⟩

/-- Fetch oracle succeeding on every URL with the 1x1 tile `okTile`. -/
def fetchAllOk : String → FetchOutcome := fun _ => .ok okTile

/-- C7: when the computed canvas dimensions exceed the
`10000 * 10000` pixel ceiling, `Stitch` fails immediately with the
size error carrying the unclamped computed dimensions: the grid loop
never runs (no URL is ever fetched, no ledger entry or tile placement
happens — the returned state is the initial one) and the error is
returned without any canvas result. -/
theorem Stitch_size_ceiling (fetch : String → FetchOutcome)
    (x1 y1 x2 y2 zoom tileSize : ℕ) (urls : List String) (outputFormat : ℕ)
    (hbig : canvasDim x1 x2 zoom tileSize * canvasDim y1 y2 zoom tileSize > 10000 * 10000) :
    Stitch fetch x1 y1 x2 y2 zoom tileSize urls outputFormat =
      (⟨clearCanvas, [], 0, []⟩,
        .error (.tooLarge (canvasDim x1 x2 zoom tileSize) (canvasDim y1 y2 zoom tileSize))) := by
  unfold Stitch
  rw [if_pos hbig]

/-- Witness for `Stitch_size_ceiling`: a full-world span at zoom 16
yields a 16777215 x 16777215 canvas request, which is over the ceiling. -/
theorem Stitch_size_ceiling_witness :
    canvasDim 0 4294967295 16 256 * canvasDim 0 4294967295 16 256 > 10000 * 10000 ∧
    Stitch fetchAllFail 0 0 4294967295 4294967295 16 256 ["u"] FormatPNG =
      (⟨clearCanvas, [], 0, []⟩,
        .error (.tooLarge (canvasDim 0 4294967295 16 256) (canvasDim 0 4294967295 16 256))) :=
  ⟨by decide,
   Stitch_size_ceiling fetchAllFail 0 0 4294967295 4294967295 16 256 ["u"] FormatPNG (by decide)⟩

/-- Output format constant `OUTFMT_PNG` of pkg/tile. -/
def OUTFMT_PNG : ℕ := 0

/-- Output format constant `OUTFMT_GEOTIFF` of pkg/tile. -/
def OUTFMT_GEOTIFF : ℕ := 1

/-- Embedding of the format parsing of `runStitch` (cmd/root.go lines
152-163): `png` maps to PNG, `geotiff` prints a downgrade warning and
maps to PNG as well (the Boolean records that the warning was emitted),
anything else is an error. -/
def parseFormat (s : String) : Except String (ℕ × Bool) :=
  if s = "png" then .ok (OUTFMT_PNG, false)
  else if s = "geotiff" then .ok (OUTFMT_PNG, true)
  else .error ("unknown format: " ++ s)

/-- C6 (amended): the two entry points diverge on GeoTIFF. In the CLI
(cmd/root.go) a requested `geotiff` format is downgraded to PNG with a
warning before the core runs and is not an error; but in the HTTP
stitcher (internal/stitcher) a `FormatGeoTIFF` output format reaching
`Stitch` always makes the run fail (`GeoTIFF output not yet
implemented`) — `Stitch` never returns a result for it. -/
theorem geotiff_handling :
    parseFormat "geotiff" = .ok (OUTFMT_PNG, true) ∧
    (∀ (fetch : String → FetchOutcome) (x1 y1 x2 y2 zoom tileSize : ℕ)
      (urls : List String) (r : StitchResult),
      (Stitch fetch x1 y1 x2 y2 zoom tileSize urls FormatGeoTIFF).2 ≠ Except.ok r) := by
  constructor
  · rfl
  · intro fetch x1 y1 x2 y2 zoom tileSize urls r
    unfold Stitch
    simp only [apply_ite (@Prod.snd GridState (Except StitchError StitchResult))]
    split_ifs <;> simp [FormatPNG, FormatGeoTIFF] at *

/-- C6 counterexample: a run in which every tile downloads and decodes
correctly but the requested output format is GeoTIFF returns the error
`GeoTIFF output not yet implemented` instead of PNG bytes with a
warning. -/
theorem geotiff_cex :
    succeedsFor fetchAllOk 1 (buildURL "u" 0 0 0) ∧
    (Stitch fetchAllOk 0 0 0 0 0 1 ["u"] FormatGeoTIFF).2 =
      Except.error StitchError.geotiffUnimplemented :=
  ⟨⟨rfl, rfl⟩, rfl⟩


/-- C3 (amended): in the server stitcher (internal/stitcher), templates
are tried in declared order and the first size-valid decode ends the
attempts for that position: the downloaded URLs are exactly the failing
prefix followed by the winning template (the templates after it are
never fetched), and the success counter increments by one.  In the CLI
stitcher (internal/stitch) there is no break: EVERY configured template
is fetched for the position, in declared order, regardless of earlier
successes. -/
theorem templateLoop_order_policy :
    (∀ (fetch : String → FetchOutcome) (tileSize zoom tx ty : ℕ)
      (xoff yoff wOut hOut : ℤ) (pre : List String) (u : String) (post : List String)
      (st : GridState),
      (∀ v ∈ pre, failsFor fetch tileSize (buildURL v zoom tx ty)) →
      succeedsFor fetch tileSize (buildURL u zoom tx ty) →
      (tryTemplates fetch tileSize zoom tx ty xoff yoff wOut hOut (pre ++ u :: post) st).fetched =
          st.fetched ++ pre.map (fun v => buildURL v zoom tx ty) ++ [buildURL u zoom tx ty] ∧
        (tryTemplates fetch tileSize zoom tx ty xoff yoff wOut hOut
            (pre ++ u :: post) st).successfulTiles = st.successfulTiles + 1) ∧
    (∀ (fetch : String → FetchOutcome) (tileSize zoom tx ty : ℕ)
      (xoff yoff wOut hOut : ℤ) (urls : List String) (st : CliState),
      (cliTemplateLoop fetch tileSize zoom tx ty xoff yoff wOut hOut urls st).fetched =
        st.fetched ++ urls.map (fun v => buildURL v zoom tx ty)) := by
  constructor
  · intro fetch tileSize zoom tx ty xoff yoff wOut hOut pre u post st hpre hu
    unfold succeedsFor at hu
    induction pre generalizing st with
    | nil =>
      simp only [List.nil_append, List.map_nil, List.append_nil]
      cases hfu : fetch (buildURL u zoom tx ty) with
      | httpErr msg => rw [hfu] at hu; exact hu.elim
      | decodeErr msg => rw [hfu] at hu; exact hu.elim
      | ok img =>
        rw [hfu] at hu
        simp only [tryTemplates, hfu]
        rw [if_neg (by tauto)]
        exact ⟨rfl, rfl⟩
    | cons v pre ih =>
      have hv := hpre v (List.mem_cons_self _ _)
      have hrest : ∀ w ∈ pre, failsFor fetch tileSize (buildURL w zoom tx ty) :=
        fun w hw => hpre w (List.mem_cons_of_mem _ hw)
      simp only [List.cons_append, List.map_cons]
      unfold failsFor at hv
      cases hfv : fetch (buildURL v zoom tx ty) with
      | httpErr msg =>
        simp only [tryTemplates, hfv]
        have hstep := ih
          { st with
              failedTiles := st.failedTiles ++ [⟨buildURL v zoom tx ty, none, msg⟩],
              fetched := st.fetched ++ [buildURL v zoom tx ty] } hrest
        exact ⟨hstep.1.trans (by simp), hstep.2⟩
      | decodeErr msg =>
        simp only [tryTemplates, hfv]
        have hstep := ih
          { st with
              failedTiles := st.failedTiles ++ [⟨buildURL v zoom tx ty, none, "decode error: " ++ msg⟩],
              fetched := st.fetched ++ [buildURL v zoom tx ty] } hrest
        exact ⟨hstep.1.trans (by simp), hstep.2⟩
      | ok img =>
        rw [hfv] at hv
        simp only [tryTemplates, hfv]
        rw [if_pos hv]
        have hstep := ih
          { st with
              failedTiles := st.failedTiles ++ [⟨buildURL v zoom tx ty, none, wrongSizeMsg img.width img.height tileSize⟩],
              fetched := st.fetched ++ [buildURL v zoom tx ty] } hrest
        exact ⟨hstep.1.trans (by simp), hstep.2⟩
  · intro fetch tileSize zoom tx ty xoff yoff wOut hOut urls st
    induction urls generalizing st with
    | nil => simp [cliTemplateLoop]
    | cons v rest ih =>
      simp only [List.map_cons]
      cases hfv : fetch (buildURL v zoom tx ty) with
      | httpErr msg =>
        simp only [cliTemplateLoop, hfv]
        exact (ih _).trans (by simp)
      | decodeErr msg =>
        simp only [cliTemplateLoop, hfv]
        exact (ih _).trans (by simp)
      | ok img =>
        simp only [cliTemplateLoop, hfv]
        by_cases hsz : img.height ≠ ((tileSize : ℕ) : ℤ) ∨ img.width ≠ ((tileSize : ℕ) : ℤ)
        · rw [if_pos hsz]
          exact (ih _).trans (by simp)
        · rw [if_neg hsz]
          exact (ih _).trans (by simp)

/-- Fetch oracle that fails the URL "bad" and succeeds elsewhere. -/
def fetchFirstFails : String → FetchOutcome :=
  fun url => if url = "bad" then .httpErr "boom" else .ok okTile

theorem fetchFirstFails_bad_fails : failsFor fetchFirstFails 1 (buildURL "bad" 0 0 0) := by
  unfold failsFor
  exact trivial

theorem fetchFirstFails_good_ok : succeedsFor fetchFirstFails 1 (buildURL "good" 0 0 0) := by
  unfold succeedsFor
  exact ⟨rfl, rfl⟩

/-- C3 counterexample: in the CLI stitcher's template loop, the first
template already yields a decoded size-valid tile, yet the position's
loop still fetches the second template (two URLs downloaded, not one). -/
theorem templateLoop_order_cex :
    succeedsFor fetchAllOk 1 (buildURL "u1" 0 0 0) ∧
    (cliTemplateLoop fetchAllOk 1 0 0 0 0 0 1 1 ["u1", "u2"] ⟨clearCanvas, []⟩).fetched.length
      = 2 :=
  ⟨⟨rfl, rfl⟩, rfl⟩

/-- Witness for `templateLoop_order_policy`: one failing template before
a succeeding one; only those two URLs are fetched in the server loop. -/
theorem templateLoop_order_policy_witness :
    ((∀ v ∈ ["bad"], failsFor fetchFirstFails 1 (buildURL v 0 0 0)) ∧
      succeedsFor fetchFirstFails 1 (buildURL "good" 0 0 0)) ∧
    ((tryTemplates fetchFirstFails 1 0 0 0 0 0 1 1 (["bad"] ++ "good" :: ["later"])
        ⟨clearCanvas, [], 0, []⟩).fetched =
        [] ++ ["bad"].map (fun v => buildURL v 0 0 0) ++ [buildURL "good" 0 0 0] ∧
      (tryTemplates fetchFirstFails 1 0 0 0 0 0 1 1 (["bad"] ++ "good" :: ["later"])
        ⟨clearCanvas, [], 0, []⟩).successfulTiles = 0 + 1) :=
  ⟨⟨fun v hv => by
      simp only [List.mem_singleton] at hv
      subst hv
      exact fetchFirstFails_bad_fails,
    fetchFirstFails_good_ok⟩,
   (templateLoop_order_policy.1 fetchFirstFails 1 0 0 0 0 0 1 1 ["bad"] "good" ["later"]
      ⟨clearCanvas, [], 0, []⟩
      (fun v hv => by
        simp only [List.mem_singleton] at hv
        subst hv
        exact fetchFirstFails_bad_fails)
      fetchFirstFails_good_ok)⟩

theorem gridPts_length (tx1 ty1 tx2 ty2 : ℕ) :
    (gridPts tx1 ty1 tx2 ty2).length = (ty2 + 1 - ty1) * (tx2 + 1 - tx1) := by
  simp only [gridPts, List.length_flatMap]
  have h : (List.map (List.length ∘ fun j => List.map (fun i => (tx1 + i, ty1 + j))
      (List.range (tx2 + 1 - tx1))) (List.range (ty2 + 1 - ty1))) =
      List.replicate (ty2 + 1 - ty1) (tx2 + 1 - tx1) := by
    rw [List.eq_replicate_iff]
    constructor
    · simp
    · intro b hb
      simp only [List.mem_map] at hb
      obtain ⟨j, _, rfl⟩ := hb
      simp
  rw [h, List.sum_replicate, smul_eq_mul]

/-- C2 (amended): the `totalTiles` statistic of `Stitch` is the number
of tile index positions MULTIPLIED by the number of configured URL
templates (it is not template-independent), and a tile index position
for which every template attempt fails contributes one ledger entry PER
TEMPLATE, not one entry in total. -/
theorem totalTiles_counts_templates :
    (∀ tx1 ty1 tx2 ty2 n : ℕ, tx1 ≤ tx2 → ty1 ≤ ty2 → n < 4294967296 →
      (tx2 - tx1 + 1) * (ty2 - ty1 + 1) * n < 4294967296 →
      totalTilesOf tx1 ty1 tx2 ty2 n = (gridPts tx1 ty1 tx2 ty2).length * n) ∧
    (∀ (fetch : String → FetchOutcome) (tileSize zoom tx ty : ℕ)
      (xoff yoff wOut hOut : ℤ) (urls : List String) (st : GridState),
      (∀ v ∈ urls, failsFor fetch tileSize (buildURL v zoom tx ty)) →
      (tryTemplates fetch tileSize zoom tx ty xoff yoff wOut hOut urls st).failedTiles.length =
        st.failedTiles.length + urls.length) := by
  constructor
  · intro tx1 ty1 tx2 ty2 n htx hty hn hprod
    rw [gridPts_length]
    rcases Nat.eq_zero_or_pos n with hn0 | hn1
    · subst hn0
      simp [totalTilesOf, u32]
    · have hb1 : 1 ≤ ty2 - ty1 + 1 := by omega
      have ha : tx2 - tx1 + 1 < 4294967296 := by
        calc tx2 - tx1 + 1 = (tx2 - tx1 + 1) * 1 * 1 := by ring
        _ ≤ (tx2 - tx1 + 1) * (ty2 - ty1 + 1) * n := by
            exact Nat.mul_le_mul (Nat.mul_le_mul_left _ hb1) hn1
        _ < 4294967296 := hprod
      have hb : ty2 - ty1 + 1 < 4294967296 := by
        calc ty2 - ty1 + 1 = 1 * (ty2 - ty1 + 1) * 1 := by ring
        _ ≤ (tx2 - tx1 + 1) * (ty2 - ty1 + 1) * n := by
            exact Nat.mul_le_mul (Nat.mul_le_mul_right _ (by omega)) hn1
        _ < 4294967296 := hprod
      have e1 : u32sub tx2 tx1 = tx2 - tx1 := by unfold u32sub; omega
      have e2 : u32sub ty2 ty1 = ty2 - ty1 := by unfold u32sub; omega
      unfold totalTilesOf
      rw [e1, e2]
      unfold u32
      rw [Nat.mod_eq_of_lt ha, Nat.mod_eq_of_lt hb, Nat.mod_eq_of_lt hn,
        Nat.mod_eq_of_lt hprod]
      have e3 : ty2 + 1 - ty1 = ty2 - ty1 + 1 := by omega
      have e4 : tx2 + 1 - tx1 = tx2 - tx1 + 1 := by omega
      rw [e3, e4]
      ring
  · intro fetch tileSize zoom tx ty xoff yoff wOut hOut urls st hfail
    induction urls generalizing st with
    | nil => simp [tryTemplates]
    | cons v rest ih =>
      have hv := hfail v (List.mem_cons_self _ _)
      have hrest : ∀ w ∈ rest, failsFor fetch tileSize (buildURL w zoom tx ty) :=
        fun w hw => hfail w (List.mem_cons_of_mem _ hw)
      unfold failsFor at hv
      cases hfv : fetch (buildURL v zoom tx ty) with
      | httpErr msg =>
        simp only [tryTemplates, hfv]
        rw [ih _ hrest]
        simp only [List.length_append, List.length_cons, List.length_nil]
        omega
      | decodeErr msg =>
        simp only [tryTemplates, hfv]
        rw [ih _ hrest]
        simp only [List.length_append, List.length_cons, List.length_nil]
        omega
      | ok img =>
        rw [hfv] at hv
        simp only [tryTemplates, hfv]
        rw [if_pos hv]
        rw [ih _ hrest]
        simp only [List.length_append, List.length_cons, List.length_nil]
        omega

/-- C2 counterexample: a 1x1 tile grid with two URL templates, both of
which fail: the run's `totalTiles` is 2 (positions times templates), not
the 1 tile index position of the grid, and the single all-failing
position contributes 2 ledger entries, not 1. -/
theorem totalTiles_cex :
    (Stitch fetchAllFail 0 0 0 0 1 256 ["u1", "u2"] FormatPNG).1.failedTiles.length = 2 ∧
    (gridPts 0 0 0 0).length = 1 ∧
    totalTilesOf 0 0 0 0 2 = 2 ∧
    (2 : ℕ) ≠ 1 :=
  ⟨rfl, rfl, rfl, by decide⟩

/-- Witness for `totalTiles_counts_templates` at a 5x8 grid with three
templates and at a concrete two-template all-failing position. -/
theorem totalTiles_counts_templates_witness :
    ((0 ≤ 4 ∧ 0 ≤ 7 ∧ 3 < 4294967296 ∧ (4 - 0 + 1) * (7 - 0 + 1) * 3 < 4294967296) ∧
      totalTilesOf 0 0 4 7 3 = (gridPts 0 0 4 7).length * 3) ∧
    ((∀ v ∈ ["a", "b"], failsFor fetchAllFail 1 (buildURL v 0 0 0)) ∧
      (tryTemplates fetchAllFail 1 0 0 0 0 0 1 1 ["a", "b"]
        ⟨clearCanvas, [], 0, []⟩).failedTiles.length = ([] : List FailedTile).length + 2) :=
  ⟨⟨⟨by omega, by omega, by decide, by decide⟩,
    totalTiles_counts_templates.1 0 0 4 7 3 (by omega) (by omega) (by decide) (by decide)⟩,
   ⟨fun v _ => trivial,
    totalTiles_counts_templates.2 fetchAllFail 1 0 0 0 0 0 1 1 ["a", "b"]
      ⟨clearCanvas, [], 0, []⟩ (fun v _ => trivial)⟩⟩

/-- Left padding to width `k` with the character `c`, as Go's `fmt`
width flag does (only pads, never truncates). -/
def padLeft (c : Char) (k : ℕ) (l : List Char) : List Char :=
  List.replicate (k - l.length) c ++ l

/-- Correct rounding of `q * 10^10` to the nearest integer, ties to
even, as Go's `strconv`/`fmt` perform for `%.10f`. -/
def rnd10 (q : ℚ) : ℤ :=
  if q * 10000000000 - ⌊q * 10000000000⌋ > 1 / 2 then ⌊q * 10000000000⌋ + 1
  else if q * 10000000000 - ⌊q * 10000000000⌋ < 1 / 2 then ⌊q * 10000000000⌋
  else if ⌊q * 10000000000⌋ % 2 = 0 then ⌊q * 10000000000⌋
  else ⌊q * 10000000000⌋ + 1

/-- Digit layout of `%24.10f` for a sign and a magnitude already scaled
by `10^10`: optional minus, integer digits, point, exactly ten
fractional digits, left-padded with spaces to a minimum width of 24. -/
def fmtFixed (neg : Bool) (m : ℕ) : List Char :=
  let ip := m / 10000000000
  let fp := m % 10000000000
  padLeft ' ' 24 ((if neg then ['-'] else []) ++ natChars ip ++ ['.'] ++ padLeft '0' 10 (natChars fp))

/-- Model of Go's `fmt.Fprintf(w, "%24.10f\n", v)` body (without the
newline): sign split and correctly rounded 10-digit fraction. -/
def fmtF24 (q : ℚ) : List Char :=
  if q < 0 then fmtFixed true (rnd10 (-q)).toNat else fmtFixed false (rnd10 q).toNat

/-- Embedding of `generateWorldFile` (internal/stitcher/stitcher.go,
identical to `pkg/tile.WriteWorldFile`'s byte layout): the six lines, in
order, `%24.10f` of `px`, `0.0`, `0.0`, `-py`, `minx`, `maxy`. -/
def generateWorldFile (px py minx maxy : ℚ) : List (List Char) :=
  [fmtF24 px, fmtF24 0, fmtF24 0, fmtF24 (-py), fmtF24 minx, fmtF24 maxy]

/-- The emitted bytes: each of the six lines is newline-terminated. -/
def worldFileBytes (px py minx maxy : ℚ) : List Char :=
  (generateWorldFile px py minx maxy).flatMap fun l => l ++ ['\n']

theorem natCharsAux_length_le : ∀ (fuel n k : ℕ), 1 ≤ k → n < 10 ^ k →
    (natCharsAux fuel n).length ≤ k := by
  intro fuel
  induction fuel with
  | zero => intro n k _ _; simp [natCharsAux]
  | succ fuel ih =>
    intro n k hk hn
    unfold natCharsAux
    by_cases h10 : n < 10
    · rw [if_pos h10]
      simpa using hk
    · rw [if_neg h10]
      have hk2 : 2 ≤ k := by
        by_contra hcon
        have hk1 : k = 1 := by omega
        subst hk1
        rw [pow_one] at hn
        omega
      have hpow : 10 ^ (k - 1) * 10 = 10 ^ k := by
        rw [← pow_succ]
        congr 1
        omega
      have hdiv : n / 10 < 10 ^ (k - 1) := by
        have hlt : n < 10 ^ (k - 1) * 10 := by omega
        omega
      have hrec := ih (n / 10) (k - 1) (by omega) hdiv
      simp only [List.length_append, List.length_cons, List.length_nil]
      omega

theorem rnd10_nonneg (q : ℚ) (h : 0 ≤ q) : 0 ≤ rnd10 q := by
  unfold rnd10
  have hf : (0 : ℤ) ≤ ⌊q * 10000000000⌋ := Int.floor_nonneg.mpr (by positivity)
  split_ifs <;> omega

theorem rnd10_le (q : ℚ) (M : ℕ) (h0 : 0 ≤ q) (hM : q ≤ (M : ℚ)) :
    rnd10 q ≤ (M : ℤ) * 10000000000 := by
  have hsB : q * 10000000000 ≤ (((M : ℤ) * 10000000000 : ℤ) : ℚ) := by
    have h := mul_le_mul_of_nonneg_right hM (show (0 : ℚ) ≤ 10000000000 by norm_num)
    push_cast
    linarith
  have hfB : ⌊q * 10000000000⌋ ≤ (M : ℤ) * 10000000000 := by
    have h := Int.floor_le_floor hsB
    rwa [Int.floor_intCast] at h
  have hstrict : q * 10000000000 - ⌊q * 10000000000⌋ > 0 →
      ⌊q * 10000000000⌋ < (M : ℤ) * 10000000000 := by
    intro hfrac
    rcases lt_or_eq_of_le hfB with h | h
    · exact h
    · exfalso
      have h2 : ((⌊q * 10000000000⌋ : ℤ) : ℚ) = (((M : ℤ) * 10000000000 : ℤ) : ℚ) := by
        exact_mod_cast h
      rw [← h2] at hsB
      linarith
  unfold rnd10
  split_ifs with h1 h2 h3
  · have := hstrict (by linarith)
    omega
  · omega
  · omega
  · have := hstrict (by linarith)
    omega

theorem fmtFixed_length_eq (neg : Bool) (m : ℕ) (hm : m ≤ 1000000000000000000000) :
    (fmtFixed neg m).length = 24 := by
  have hip : (natChars (m / 10000000000)).length ≤ 12 := by
    apply natCharsAux_length_le
    · omega
    · have : (10 : ℕ) ^ 12 = 1000000000000 := by norm_num
      omega
  have hfp : (natChars (m % 10000000000)).length ≤ 10 := by
    apply natCharsAux_length_le
    · omega
    · have : (10 : ℕ) ^ 10 = 10000000000 := by norm_num
      omega
  cases neg <;>
    simp only [fmtFixed, padLeft, List.length_append, List.length_replicate,
      List.length_cons, List.length_nil, if_true, if_false, Bool.false_eq_true,
      ite_true, ite_false] <;>
    omega

theorem fmtF24_length_ge (q : ℚ) : 24 ≤ (fmtF24 q).length := by
  unfold fmtF24
  split_ifs <;>
    simp only [fmtFixed, padLeft, List.length_append, List.length_replicate] <;>
    omega

theorem fmtF24_length_eq (q : ℚ) (h1 : -(100000000000 : ℚ) ≤ q)
    (h2 : q ≤ 100000000000) : (fmtF24 q).length = 24 := by
  have hM : ((100000000000 : ℕ) : ℚ) = (100000000000 : ℚ) := by norm_num
  unfold fmtF24
  by_cases hq : q < 0
  · rw [if_pos hq]
    apply fmtFixed_length_eq
    have hr : rnd10 (-q) ≤ ((100000000000 : ℕ) : ℤ) * 10000000000 := by
      apply rnd10_le
      · linarith
      · rw [hM]; linarith
    have : ((100000000000 : ℕ) : ℤ) * 10000000000 = (1000000000000000000000 : ℤ) := by
      norm_num
    rw [this] at hr
    omega
  · rw [if_neg hq]
    apply fmtFixed_length_eq
    have hr : rnd10 q ≤ ((100000000000 : ℕ) : ℤ) * 10000000000 := by
      apply rnd10_le
      · linarith
      · rw [hM]; linarith
    have : ((100000000000 : ℕ) : ℤ) * 10000000000 = (1000000000000000000000 : ℤ) := by
      norm_num
    rw [this] at hr
    omega

/-- C8 (amended): the world-file output is always exactly six
newline-terminated lines in the exact order `pixelSizeX`, `0.0`, `0.0`,
`-pixelSizeY`, `originX`, `originY`, each with 10 fractional decimal
digits and AT LEAST 24 characters wide (`%24.10f` pads to a minimum
width, it does not truncate); each line is exactly 24 characters wide
whenever the corresponding value's magnitude is at most `10^11` (which
covers every Web-Mercator coordinate, whose magnitude is below
`2.1 * 10^7`). -/
theorem generateWorldFile_layout (px py minx maxy : ℚ)
    (hpx1 : -(100000000000 : ℚ) ≤ px) (hpx2 : px ≤ 100000000000)
    (hpy1 : -(100000000000 : ℚ) ≤ py) (hpy2 : py ≤ 100000000000)
    (hmx1 : -(100000000000 : ℚ) ≤ minx) (hmx2 : minx ≤ 100000000000)
    (hmy1 : -(100000000000 : ℚ) ≤ maxy) (hmy2 : maxy ≤ 100000000000) :
    (generateWorldFile px py minx maxy).length = 6 ∧
    generateWorldFile px py minx maxy =
      [fmtF24 px, fmtF24 0, fmtF24 0, fmtF24 (-py), fmtF24 minx, fmtF24 maxy] ∧
    worldFileBytes px py minx maxy =
      (generateWorldFile px py minx maxy).flatMap (fun l => l ++ ['\n']) ∧
    (∀ q : ℚ, 24 ≤ (fmtF24 q).length) ∧
    (∀ l ∈ generateWorldFile px py minx maxy, l.length = 24) := by
  refine ⟨rfl, rfl, rfl, fmtF24_length_ge, ?_⟩
  intro l hl
  simp only [generateWorldFile, List.mem_cons, List.not_mem_nil, or_false] at hl
  rcases hl with rfl | rfl | rfl | rfl | rfl | rfl
  · exact fmtF24_length_eq px hpx1 hpx2
  · exact fmtF24_length_eq 0 (by norm_num) (by norm_num)
  · exact fmtF24_length_eq 0 (by norm_num) (by norm_num)
  · exact fmtF24_length_eq (-py) (by linarith) (by linarith)
  · exact fmtF24_length_eq minx hmx1 hmx2
  · exact fmtF24_length_eq maxy hmy1 hmy2

/-- C8 counterexample: with `originX = 10^13` (a perfectly
representable float64), the fifth line of the world file is 25
characters wide, not 24; the file still has exactly six lines. -/
theorem generateWorldFile_cex :
    (generateWorldFile 0 0 (10 ^ 13 : ℚ) 0).length = 6 ∧
    (generateWorldFile 0 0 (10 ^ 13 : ℚ) 0).map List.length = [24, 24, 24, 24, 25, 24] ∧
    (25 : ℕ) ≠ 24 := by
  have hz : fmtF24 (0 : ℚ) = fmtFixed false 0 := by
    unfold fmtF24
    rw [if_neg (by norm_num)]
    norm_num [rnd10]
  have hnz : fmtF24 (-(0 : ℚ)) = fmtFixed false 0 := by
    rw [neg_zero]
    exact hz
  have hbig : fmtF24 ((10 : ℚ) ^ 13) = fmtFixed false (10 ^ 23) := by
    unfold fmtF24
    rw [if_neg (by norm_num)]
    norm_num [rnd10]
    congr 1
  refine ⟨rfl, ?_, by decide⟩
  unfold generateWorldFile
  rw [hz, hnz, hbig]
  decide

/-- Witness for `generateWorldFile_layout` at Web-Mercator-sized
magnitudes. -/
theorem generateWorldFile_layout_witness :
    ((-(100000000000 : ℚ) ≤ (20037508 : ℚ)) ∧ ((20037508 : ℚ) ≤ 100000000000)) ∧
    ((generateWorldFile 20037508 20037508 20037508 20037508).length = 6 ∧
      generateWorldFile 20037508 20037508 20037508 20037508 =
        [fmtF24 20037508, fmtF24 0, fmtF24 0, fmtF24 (-20037508), fmtF24 20037508,
          fmtF24 20037508] ∧
      worldFileBytes 20037508 20037508 20037508 20037508 =
        (generateWorldFile 20037508 20037508 20037508 20037508).flatMap
          (fun l => l ++ ['\n']) ∧
      (∀ q : ℚ, 24 ≤ (fmtF24 q).length) ∧
      (∀ l ∈ generateWorldFile 20037508 20037508 20037508 20037508, l.length = 24)) :=
  ⟨⟨by norm_num, by norm_num⟩,
   generateWorldFile_layout 20037508 20037508 20037508 20037508 (by norm_num) (by norm_num)
     (by norm_num) (by norm_num) (by norm_num) (by norm_num) (by norm_num) (by norm_num)⟩

/-- Embedding of `latlon2tile(lat, lon, 32)` (internal/stitcher, identical
to `pkg/tile.LatLonToTile`) over the real numbers: the slippy-map
transform quantised to `2^32` units per world width; the Go `uint32(...)`
conversion truncates the nonnegative in-range float, modelled by the
floor. -/
noncomputable def latlon2tile (lat lon : ℝ) : ℤ × ℤ :=
  (⌊(4294967296 : ℝ) * ((lon + 180) / 360)⌋,
   ⌊(4294967296 : ℝ) *
      (1 - Real.log (Real.tan (lat * Real.pi / 180) +
        1 / Real.cos (lat * Real.pi / 180)) / Real.pi) / 2⌋)

/-- Embedding of `tile2latlon(x, y, 32)` (internal/stitcher, identical to
`pkg/tile.TileToLatLon`): the inverse via the Gudermannian function. -/
noncomputable def tile2latlon (x y : ℤ) : ℝ × ℝ :=
  (Real.arctan (Real.sinh (Real.pi * (1 - 2 * (y : ℝ) / 4294967296))) * 180 / Real.pi,
   360 * (x : ℝ) / 4294967296 - 180)

theorem arctan_sinh_log_sec (θ : ℝ) (h1 : -(Real.pi / 2) < θ) (h2 : θ < Real.pi / 2) :
    Real.arctan (Real.sinh (Real.log (Real.tan θ + 1 / Real.cos θ))) = θ := by
  have hcos : 0 < Real.cos θ := Real.cos_pos_of_mem_Ioo ⟨h1, h2⟩
  have hsin : -1 < Real.sin θ := by
    have hm : StrictMonoOn Real.sin (Set.Icc (-(Real.pi / 2)) (Real.pi / 2)) :=
      Real.strictMonoOn_sin
    have := hm (Set.mem_Icc.mpr ⟨le_refl _, by linarith [Real.pi_pos]⟩)
      (Set.mem_Icc.mpr ⟨le_of_lt h1, le_of_lt h2⟩) h1
    rwa [Real.sin_neg, Real.sin_pi_div_two] at this
  have hu : 0 < Real.tan θ + 1 / Real.cos θ := by
    rw [Real.tan_eq_sin_div_cos]
    have heq : Real.sin θ / Real.cos θ + 1 / Real.cos θ = (Real.sin θ + 1) / Real.cos θ := by
      ring
    rw [heq]
    exact div_pos (by linarith) hcos
  have hmul : (Real.tan θ + 1 / Real.cos θ) * (1 / Real.cos θ - Real.tan θ) = 1 := by
    rw [Real.tan_eq_sin_div_cos]
    field_simp
    nlinarith [Real.sin_sq_add_cos_sq θ]
  have hinv : (Real.tan θ + 1 / Real.cos θ)⁻¹ = 1 / Real.cos θ - Real.tan θ :=
    inv_eq_of_mul_eq_one_right hmul
  have hsinh : Real.sinh (Real.log (Real.tan θ + 1 / Real.cos θ)) = Real.tan θ := by
    rw [Real.sinh_eq, Real.exp_log hu, Real.exp_neg, Real.exp_log hu, hinv]
    ring
  rw [hsinh, Real.arctan_tan h1 h2]

theorem arctan_sinh_lipschitz : LipschitzWith 1 (fun s : ℝ => Real.arctan (Real.sinh s)) := by
  apply lipschitzWith_of_nnnorm_deriv_le
  · intro s
    exact ((Real.hasDerivAt_arctan (Real.sinh s)).comp s
      (Real.hasDerivAt_sinh s)).differentiableAt
  · intro s
    have hd : deriv (fun s : ℝ => Real.arctan (Real.sinh s)) s =
        1 / (1 + Real.sinh s ^ 2) * Real.cosh s :=
      ((Real.hasDerivAt_arctan (Real.sinh s)).comp s (Real.hasDerivAt_sinh s)).deriv
    rw [← NNReal.coe_le_coe, coe_nnnorm, NNReal.coe_one, hd, Real.norm_eq_abs]
    have hc1 : 1 ≤ Real.cosh s := Real.one_le_cosh s
    have hsq : 1 + Real.sinh s ^ 2 = Real.cosh s ^ 2 := (Real.cosh_sq' s).symm
    rw [hsq, abs_le]
    constructor
    · have : 0 ≤ 1 / Real.cosh s ^ 2 * Real.cosh s := by positivity
      linarith
    · rw [div_mul_eq_mul_div, one_mul, div_le_one (by positivity)]
      nlinarith

/-- C9: converting a latitude strictly inside (-85.05, 85.05) degrees and
a longitude in [-180, 180) to the 32-bit fixed-precision tile coordinate
and back reproduces the input to within `10^-6` degrees (the only error
is the quantisation to `2^-32` of the world: the analytic maps are exact
inverses, and the Gudermannian `arctan ∘ sinh` is 1-Lipschitz). -/
theorem latlon2tile_roundtrip (lat lon : ℝ)
    (hlat1 : -85.05 < lat) (hlat2 : lat < 85.05)
    (hlon1 : -180 ≤ lon) (hlon2 : lon < 180) :
    |(tile2latlon (latlon2tile lat lon).1 (latlon2tile lat lon).2).1 - lat| ≤ 1 / 1000000 ∧
    |(tile2latlon (latlon2tile lat lon).1 (latlon2tile lat lon).2).2 - lon| ≤ 1 / 1000000 := by
  have hpi := Real.pi_pos
  constructor
  · -- latitude component
    simp only [latlon2tile, tile2latlon]
    have hθ1 : -(Real.pi / 2) < lat * Real.pi / 180 := by
      have h90 : 0 < lat + 90 := by linarith
      nlinarith [mul_pos hpi h90]
    have hθ2 : lat * Real.pi / 180 < Real.pi / 2 := by
      have h90 : 0 < 90 - lat := by linarith
      nlinarith [mul_pos hpi h90]
    set g : ℝ := Real.log (Real.tan (lat * Real.pi / 180) +
      1 / Real.cos (lat * Real.pi / 180)) with hgdef
    set Y : ℝ := (4294967296 : ℝ) * (1 - g / Real.pi) / 2 with hYdef
    have hfl : (⌊Y⌋ : ℝ) ≤ Y := Int.floor_le Y
    have hfu : Y < ⌊Y⌋ + 1 := Int.lt_floor_add_one Y
    have htY : Real.pi * (1 - 2 * Y / 4294967296) = g := by
      rw [hYdef]
      field_simp
      ring
    have hexact : Real.arctan (Real.sinh g) = lat * Real.pi / 180 :=
      arctan_sinh_log_sec (lat * Real.pi / 180) hθ1 hθ2
    have hdist := arctan_sinh_lipschitz.dist_le_mul
      (Real.pi * (1 - 2 * (⌊Y⌋ : ℝ) / 4294967296))
      (Real.pi * (1 - 2 * Y / 4294967296))
    rw [NNReal.coe_one, one_mul, Real.dist_eq, Real.dist_eq] at hdist
    have htdiff : |Real.pi * (1 - 2 * (⌊Y⌋ : ℝ) / 4294967296) -
        Real.pi * (1 - 2 * Y / 4294967296)| ≤ 2 * Real.pi / 4294967296 := by
      have heq : Real.pi * (1 - 2 * (⌊Y⌋ : ℝ) / 4294967296) -
          Real.pi * (1 - 2 * Y / 4294967296) =
          2 * Real.pi * (Y - (⌊Y⌋ : ℝ)) / 4294967296 := by
        ring
      rw [heq, abs_le]
      constructor
      · have h1 : 0 ≤ Y - (⌊Y⌋ : ℝ) := by linarith
        have h2 : 0 ≤ 2 * Real.pi * (Y - (⌊Y⌋ : ℝ)) / 4294967296 := by positivity
        linarith
      · have h1 : Y - (⌊Y⌋ : ℝ) ≤ 1 := by linarith
        have h2 : 2 * Real.pi * (Y - (⌊Y⌋ : ℝ)) ≤ 2 * Real.pi * 1 := by nlinarith
        nlinarith
    have hF := le_trans hdist htdiff
    rw [htY] at hF
    have hlat_eq : lat * Real.pi / 180 * 180 / Real.pi = lat := by
      field_simp
    have hkey : Real.arctan (Real.sinh (Real.pi *
        (1 - 2 * (⌊Y⌋ : ℝ) / 4294967296))) * 180 / Real.pi - lat =
        (Real.arctan (Real.sinh (Real.pi * (1 - 2 * (⌊Y⌋ : ℝ) / 4294967296))) -
          Real.arctan (Real.sinh g)) * 180 / Real.pi := by
      rw [hexact]
      field_simp
      ring
    rw [hkey, abs_div, abs_mul]
    rw [abs_of_pos hpi, abs_of_pos (show (0:ℝ) < 180 by norm_num)]
    rw [div_le_iff hpi]
    calc |Real.arctan (Real.sinh (Real.pi * (1 - 2 * (⌊Y⌋ : ℝ) / 4294967296))) -
          Real.arctan (Real.sinh g)| * 180
        ≤ 2 * Real.pi / 4294967296 * 180 := by nlinarith [hF]
      _ ≤ 1 / 1000000 * Real.pi := by
          rw [div_mul_eq_mul_div, div_le_iff (by norm_num : (0:ℝ) < 4294967296)]
          nlinarith [hpi]
  · -- longitude component
    simp only [latlon2tile, tile2latlon]
    set u : ℝ := (4294967296 : ℝ) * ((lon + 180) / 360) with hudef
    have hfl : (⌊u⌋ : ℝ) ≤ u := Int.floor_le u
    have hfu : u < ⌊u⌋ + 1 := Int.lt_floor_add_one u
    have hlon_eq : 360 * u / 4294967296 - 180 = lon := by
      rw [hudef]
      field_simp
    have heq : 360 * ((⌊u⌋ : ℤ) : ℝ) / 4294967296 - 180 - lon =
        360 * ((⌊u⌋ : ℝ) - u) / 4294967296 := by
      rw [← hlon_eq]
      ring
    rw [heq, abs_le]
    constructor
    · nlinarith
    · nlinarith

/-- Witness for `latlon2tile_roundtrip` at latitude 40, longitude 7. -/
theorem latlon2tile_roundtrip_witness :
    (-85.05 < (40 : ℝ) ∧ (40 : ℝ) < 85.05 ∧ -180 ≤ (7 : ℝ) ∧ (7 : ℝ) < 180) ∧
    (|(tile2latlon (latlon2tile 40 7).1 (latlon2tile 40 7).2).1 - 40| ≤ 1 / 1000000 ∧
      |(tile2latlon (latlon2tile 40 7).1 (latlon2tile 40 7).2).2 - 7| ≤ 1 / 1000000) :=
  ⟨⟨by norm_num, by norm_num, by norm_num, by norm_num⟩,
   latlon2tile_roundtrip 40 7 (by norm_num) (by norm_num) (by norm_num) (by norm_num)⟩

